import Mathlib

/-!
Shallow embedding of `filter_plugins/wireguard_filters.py`:
`parse_wireguard_config`, `parse_wireguard_peers`, `merge_wireguard_peers`
and `filter_peers_by_inventory`, together with proofs about them.

Python strings are modelled as Lean `String` (a wrapper around `List Char`);
the string operations used by the source (`strip`, `split`, `lower`,
`startswith`, the `in` substring test, slicing) are defined here structurally
over the character list so that every definition evaluates by kernel
reduction.  Python dictionaries are modelled as insertion-ordered association
lists with a replace-in-place / append-at-end insert, matching CPython dict
semantics (assignment to an existing key keeps its position; lookups return
the entry's value).
-/

namespace WG

/-- Python `dict` model: insertion-ordered association list. -/
abbrev Dict (α : Type) : Type := List (String × α)

/-- `d[k] = v`: replace in place when the key is present, else append.
(Dictionaries reachable from the source never hold a duplicate key, so
replacing the first occurrence is CPython's dict assignment.) -/
def dinsert {α : Type} : Dict α → String → α → Dict α
  | [], k, v => [(k, v)]
  | (a, b) :: d, k, v =>
    if a = k then (k, v) :: d else (a, b) :: dinsert d k v

/-- `d.get(k)`: value of the first (hence unique) entry with key `k`. -/
def dget? {α : Type} (d : Dict α) (k : String) : Option α :=
  (d.find? (fun p => p.1 = k)).map (fun p => p.2)

/-- Whitespace trim from the left of a character list. -/
def dropWs (l : List Char) : List Char := l.dropWhile Char.isWhitespace

/-- Python `str.strip()`: trim whitespace from both ends. -/
def pyStrip (s : String) : String := ⟨(dropWs (dropWs s.data).reverse).reverse⟩

/-- Python `str.lower()` (ASCII, which is all the source needs). -/
def pyLower (s : String) : String := ⟨s.data.map Char.toLower⟩

/-- Python `s.startswith(c)` for a single-character needle. -/
def startsW (s : String) (c : Char) : Bool :=
  match s.data with
  | [] => false
  | d :: _ => d = c

/-- List-prefix test. -/
def isPreL : List Char → List Char → Bool
  | [], _ => true
  | _ :: _, [] => false
  | a :: as, b :: bs => a = b && isPreL as bs

/-- Substring test on character lists. -/
def isSubL : List Char → List Char → Bool
  | n, [] => n.isEmpty
  | n, h :: t => isPreL n (h :: t) || isSubL n t

/-- Python `needle in hay` for strings. -/
def pyIn (needle hay : String) : Bool := isSubL needle.data hay.data

/-- Python `s.split(sep, 1)` (guarded by `sep in s` at every use site):
the text before the first `sep` and the text after it. -/
def splitFirst (s : String) (sep : Char) : String × String :=
  (⟨s.data.takeWhile (fun c => c ≠ sep)⟩,
   ⟨(s.data.dropWhile (fun c => c ≠ sep)).drop 1⟩)

/-- Python `s[1:]`. -/
def dropOne (s : String) : String := ⟨s.data.drop 1⟩

/-- Python `s[:12]`. -/
def take12 (s : String) : String := ⟨s.data.take 12⟩

/-- Python `s.split(sep)` for a single-character separator:
splitting on `'\n'` keeps empty pieces, as in Python. -/
def splitAll (sep : Char) : List Char → List (List Char)
  | [] => [[]]
  | c :: cs =>
    match splitAll sep cs, decEq c sep with
    | r, isTrue _ => [] :: r
    | [], isFalse _ => [[c]]
    | h :: t, isFalse _ => (c :: h) :: t

/-- `config_text.split('\n')`. -/
def pyLines (s : String) : List String := (splitAll '\n' s.data).map (fun l => ⟨l⟩)

/-- The record built for one finalized peer (`peers[peer_name] = {...}`
plus the two conditional assignments). -/
structure PeerRecord where
  public_key : String
  allowed_ips : String
  endpoint : Option String
  persistent_keepalive : Option String
deriving DecidableEq, Repr

/-- `current_section`: `None`, `'interface'` or `'peer'`.  The source always
assigns `current_section` and `current_data` together, so the embedding
stores the section tag and lets it determine which map `current_data`
aliases: the interface map when `iface`, the per-peer map when `peer`,
nothing when `nosec`. -/
inductive Sect
  | nosec
  | iface
  | peer
deriving DecidableEq, Repr

/-- The parser's loop state: `interface`, `peers`, `current_section`,
`current_comment` and the peer-section accumulation map. -/
structure PState where
  interface : Dict String
  peers : Dict PeerRecord
  sec : Sect
  comment : Option String
  peerData : Dict String
deriving DecidableEq, Repr

/-- The record literal assigned to `peers[peer_name]`, with the two
`if key in current_data` conditional fields. -/
def mkPeerRecord (d : Dict String) (pk : String) : PeerRecord :=
  { public_key := pk
    allowed_ips := (dget? d "allowedips").getD ""
    endpoint := dget? d "endpoint"
    persistent_keepalive := dget? d "persistentkeepalive" }

/-- The "save previous peer" block run at each section header and once after
the loop: `if current_section == 'peer' and current_data and
current_data.get('publickey'):`. -/
def finalizePeer (st : PState) : PState :=
  let pk := (dget? st.peerData "publickey").getD ""
  if st.sec = Sect.peer ∧ st.peerData ≠ [] ∧ pk ≠ "" then
    let peer_name :=
      match st.comment with
      | some c => if c ≠ "" then c else take12 pk
      | none => take12 pk
    { st with peers := dinsert st.peers peer_name (mkPeerRecord st.peerData pk) }
  else st

/-- One iteration of `for line in lines`. -/
def step (st : PState) (line : String) : PState :=
  let stripped := pyStrip line
  if startsW stripped '#' then
    let comment_text := pyStrip (dropOne stripped)
    if st.sec = Sect.iface ∧ pyIn "publickey" (pyLower comment_text) then
      if pyIn "=" comment_text then
        let key_part := pyLower (pyStrip (splitFirst comment_text '=').1)
        let value_part := pyStrip (splitFirst comment_text '=').2
        if key_part = "publickey" then
          { st with interface := dinsert st.interface "public_key" value_part }
        else st
      else st
    else
      { st with comment := some comment_text }
  else if startsW stripped '[' then
    let st1 := finalizePeer st
    if pyIn "[Peer]" stripped then
      { st1 with sec := Sect.peer, peerData := [], comment := none }
    else if pyIn "[Interface]" stripped then
      { st1 with sec := Sect.iface, comment := none }
    else st1
  else if pyIn "=" stripped ∧ st.sec ≠ Sect.nosec then
    let key := pyLower (pyStrip (splitFirst stripped '=').1)
    let value := pyStrip (splitFirst stripped '=').2
    match st.sec with
    | Sect.iface => { st with interface := dinsert st.interface key value }
    | Sect.peer => { st with peerData := dinsert st.peerData key value }
    | Sect.nosec => st
  else st

/-- `parse_wireguard_config`'s return value. -/
structure ParseResult where
  interface : Dict String
  peers : Dict PeerRecord
deriving DecidableEq, Repr

/-- Initial loop state. -/
def initState : PState :=
  { interface := [], peers := [], sec := Sect.nosec, comment := none, peerData := [] }

/-- `parse_wireguard_config(config_text)`.  `none` models Python `None`. -/
def parse_wireguard_config (config_text : Option String) : ParseResult :=
  match config_text with
  | none => { interface := [], peers := [] }
  | some s =>
    if s = "" ∨ pyStrip s = "" then { interface := [], peers := [] }
    else
      let st := finalizePeer ((pyLines s).foldl step initState)
      { interface := st.interface, peers := st.peers }

/-- `parse_wireguard_peers(config_text)`. -/
def parse_wireguard_peers (config_text : Option String) : Dict PeerRecord :=
  (parse_wireguard_config config_text).peers

/-- Peer mappings as merge/filter operate on them. -/
abbrev PeerMapping := Dict PeerRecord

/-- `merge_wireguard_peers(existing_peers, new_peers)`.  A `none` argument
models Python `None` (falsy, replaced by `{}`; a falsy empty dict is likewise
replaced by an equal empty dict). -/
def merge_wireguard_peers (existing_peers new_peers : Option PeerMapping) : PeerMapping :=
  let e := existing_peers.getD []
  let n := new_peers.getD []
  n.foldl (fun m kv => dinsert m kv.1 kv.2) e

/-- `filter_peers_by_inventory(peers, inventory_hosts)`. -/
def filter_peers_by_inventory (peers : Option PeerMapping)
    (inventory_hosts : Option (List String)) : PeerMapping :=
  match peers with
  | none => []
  | some p =>
    if p = [] then []
    else
      match inventory_hosts with
      | none => p
      | some l =>
        if l = [] then p
        else p.filter (fun kv => l.contains kv.1)

end WG

namespace WG

/-! ### Dictionary lemmas -/

theorem dget_cons {α : Type} (a : String) (b : α) (t : Dict α) (k : String) :
    dget? ((a, b) :: t) k = if a = k then some b else dget? t k := by
  by_cases h : a = k
  · simp [dget?, List.find?_cons_of_pos, h]
  · simp only [dget?, if_neg h]
    rw [List.find?_cons_of_neg]
    simp [h]

theorem dget_nil {α : Type} (k : String) : dget? ([] : Dict α) k = none := rfl

/-- Lookup after insert: the inserted key reads back the new value, every
other key is untouched. -/
theorem dget_dinsert {α : Type} (d : Dict α) (k k2 : String) (v : α) :
    dget? (dinsert d k v) k2 = if k2 = k then some v else dget? d k2 := by
  induction d with
  | nil =>
    show dget? [(k, v)] k2 = _
    rw [dget_cons, dget_nil]
    by_cases h : k2 = k
    · rw [if_pos h.symm, if_pos h]
    · rw [if_neg (fun hh => h hh.symm), if_neg h]
  | cons p d ih =>
    obtain ⟨a, b⟩ := p
    show dget? (if a = k then (k, v) :: d else (a, b) :: dinsert d k v) k2 = _
    by_cases hak : a = k
    · rw [if_pos hak, dget_cons, dget_cons]
      by_cases h : k2 = k
      · rw [if_pos h, if_pos h.symm]
      · rw [if_neg (fun hh => h hh.symm), if_neg h,
          if_neg (fun hh => h (hak ▸ hh).symm)]
    · rw [if_neg hak, dget_cons, dget_cons]
      by_cases hab : a = k2
      · rw [if_pos hab, if_pos hab,
          if_neg (fun hh => hak ((hab.trans hh).symm ▸ rfl))]
      · rw [if_neg hab, if_neg hab, ih]

/-- Every entry of `dinsert d k v` is an entry of `d` or the new pair. -/
theorem mem_dinsert {α : Type} {d : Dict α} {k : String} {v : α}
    {p : String × α} (hp : p ∈ dinsert d k v) : p ∈ d ∨ p = (k, v) := by
  induction d with
  | nil => right; simpa [dinsert] using hp
  | cons q d ih =>
    obtain ⟨a, b⟩ := q
    unfold dinsert at hp
    split at hp
    · rcases List.mem_cons.mp hp with h | h
      · exact Or.inr h
      · exact Or.inl (List.mem_cons_of_mem _ h)
    · rcases List.mem_cons.mp hp with h | h
      · exact Or.inl (h ▸ List.mem_cons_self _ _)
      · rcases ih h with h2 | h2
        · exact Or.inl (List.mem_cons_of_mem _ h2)
        · exact Or.inr h2

/-- An entry whose key differs from the inserted one survives insertion. -/
theorem mem_dinsert_of_ne {α : Type} {d : Dict α} {k : String} {v : α}
    {p : String × α} (hp : p ∈ d) (hne : p.1 ≠ k) : p ∈ dinsert d k v := by
  induction d with
  | nil => cases hp
  | cons q d ih =>
    obtain ⟨a, b⟩ := q
    unfold dinsert
    rcases List.mem_cons.mp hp with h | h
    · subst h
      rw [if_neg (by simpa using hne)]
      exact List.mem_cons_self _ _
    · split
      · exact List.mem_cons_of_mem _ h
      · exact List.mem_cons_of_mem _ (ih h)

/-- The inserted pair is an entry of the result. -/
theorem self_mem_dinsert {α : Type} (d : Dict α) (k : String) (v : α) :
    (k, v) ∈ dinsert d k v := by
  induction d with
  | nil => exact List.mem_singleton.mpr rfl
  | cons q d ih =>
    obtain ⟨a, b⟩ := q
    unfold dinsert
    split
    · exact List.mem_cons_self _ _
    · exact List.mem_cons_of_mem _ ih

/-- A key outside a dictionary's key list looks up to nothing. -/
theorem dget_eq_none_of_not_mem_keys {α : Type} {d : Dict α} {k : String}
    (h : k ∉ d.map Prod.fst) : dget? d k = none := by
  induction d with
  | nil => rfl
  | cons q d ih =>
    obtain ⟨a, b⟩ := q
    simp only [List.map_cons, List.mem_cons] at h
    push_neg at h
    rw [dget_cons, if_neg (fun hh => h.1 hh.symm)]
    exact ih h.2

/-- Inserting a fresh key appends the pair at the end. -/
theorem dinsert_eq_append {α : Type} {d : Dict α} {k : String} (v : α)
    (h : k ∉ d.map Prod.fst) : dinsert d k v = d ++ [(k, v)] := by
  induction d with
  | nil => rfl
  | cons q d ih =>
    obtain ⟨a, b⟩ := q
    simp only [List.map_cons, List.mem_cons] at h
    push_neg at h
    show (if a = k then _ else _) = _
    rw [if_neg (fun hh => h.1 hh.symm), List.cons_append, ih h.2]

/-! ### Lemmas about the fold inside `merge_wireguard_peers` -/

/-- The first lookup answer when present, else the second. -/
def firstOr {α : Type} : Option α → Option α → Option α
  | some w, _ => some w
  | none, b => b

/-- Lookup in the merged mapping: the incoming mapping wins when it binds
the key, otherwise the existing mapping answers. -/
theorem foldl_dinsert_dget {α : Type} (n : Dict α)
    (hn : (n.map Prod.fst).Nodup) :
    ∀ (e : Dict α) (k : String),
      dget? (n.foldl (fun m kv => dinsert m kv.1 kv.2) e) k =
        firstOr (dget? n k) (dget? e k) := by
  induction n with
  | nil => intro e k; simp [dget_nil, firstOr]
  | cons q n ih =>
    obtain ⟨k0, v0⟩ := q
    simp only [List.map_cons, List.nodup_cons] at hn
    intro e k
    simp only [List.foldl_cons]
    rw [ih hn.2, dget_cons]
    by_cases h : k = k0
    · subst h
      rw [if_pos rfl, dget_eq_none_of_not_mem_keys hn.1, dget_dinsert, if_pos rfl]
      rfl
    · rw [if_neg (fun hh => h hh.symm)]
      cases hq : dget? n k with
      | some w => rfl
      | none =>
        simp only [firstOr]
        rw [dget_dinsert, if_neg h]

/-- An existing entry whose key the incoming mapping does not rebind
survives the merge fold. -/
theorem mem_foldl_dinsert_of_ne {α : Type} {n : Dict α} :
    ∀ {m : Dict α} {q : String × α}, q ∈ m → q.1 ∉ n.map Prod.fst →
      q ∈ n.foldl (fun m kv => dinsert m kv.1 kv.2) m := by
  induction n with
  | nil => intro m q hq _; exact hq
  | cons p n ih =>
    intro m q hq hk
    simp only [List.map_cons, List.mem_cons] at hk
    push_neg at hk
    exact ih (mem_dinsert_of_ne hq hk.1) hk.2

/-- Every entry of the incoming mapping is an entry of the merge fold. -/
theorem mem_foldl_dinsert_incoming {α : Type} {n : Dict α}
    (hn : (n.map Prod.fst).Nodup) :
    ∀ {e : Dict α} {q : String × α}, q ∈ n →
      q ∈ n.foldl (fun m kv => dinsert m kv.1 kv.2) e := by
  induction n with
  | nil => intro e q hq; cases hq
  | cons p n ih =>
    simp only [List.map_cons, List.nodup_cons] at hn
    intro e q hq
    obtain ⟨qa, qb⟩ := q
    rcases List.mem_cons.mp hq with h | h
    · subst h
      simp only [List.foldl_cons]
      exact mem_foldl_dinsert_of_ne (self_mem_dinsert e qa qb) hn.1
    · exact ih hn.2 h

/-- Every entry of the merge fold comes from one of the two mappings. -/
theorem mem_foldl_dinsert {α : Type} {n : Dict α} :
    ∀ {e : Dict α} {q : String × α},
      q ∈ n.foldl (fun m kv => dinsert m kv.1 kv.2) e → q ∈ e ∨ q ∈ n := by
  induction n with
  | nil => intro e q hq; exact Or.inl hq
  | cons p n ih =>
    intro e q hq
    rcases ih hq with h | h
    · rcases mem_dinsert h with h2 | h2
      · exact Or.inl h2
      · right; rw [h2]; exact List.mem_cons_self _ _
    · exact Or.inr (List.mem_cons_of_mem _ h)

/-- Folding a key-disjoint incoming mapping just appends it. -/
theorem foldl_dinsert_disjoint {α : Type} (n : Dict α)
    (hn : (n.map Prod.fst).Nodup) :
    ∀ e : Dict α, (∀ x ∈ n.map Prod.fst, x ∉ e.map Prod.fst) →
      n.foldl (fun m kv => dinsert m kv.1 kv.2) e = e ++ n := by
  induction n with
  | nil => intro e _; simp
  | cons p n ih =>
    simp only [List.map_cons, List.nodup_cons] at hn
    intro e hd
    simp only [List.foldl_cons]
    have hpe : dinsert e p.1 p.2 = e ++ [(p.1, p.2)] :=
      dinsert_eq_append _ (hd p.1 (List.mem_cons_self _ _))
    rw [hpe, ih hn.2]
    · simp
    · intro x hx
      simp only [List.map_append, List.mem_append]
      push_neg
      refine ⟨hd x (List.mem_cons_of_mem _ hx), ?_⟩
      simp only [List.map_cons, List.map_nil, List.mem_singleton]
      intro hxp
      exact hn.1 (hxp ▸ hx)

/-! ### A filter lemma -/

/-- First-match lookup commutes with filtering by a key predicate. -/
theorem dget_filter_key {α : Type} (p : Dict α) (pred : String → Bool) (k : String) :
    dget? (p.filter (fun kv => pred kv.1)) k =
      if pred k then dget? p k else none := by
  induction p with
  | nil => by_cases h : pred k <;> simp [dget_nil, h]
  | cons q p ih =>
    obtain ⟨a, b⟩ := q
    by_cases hq : pred a = true
    · have hf : List.filter (fun kv => pred kv.1) ((a, b) :: p)
          = (a, b) :: List.filter (fun kv => pred kv.1) p := by
        simp [List.filter_cons, hq]
      rw [hf, dget_cons, dget_cons]
      by_cases hak : a = k
      · subst hak
        rw [if_pos rfl, if_pos hq, if_pos rfl]
      · rw [if_neg hak, if_neg hak, ih]
    · have hf : List.filter (fun kv => pred kv.1) ((a, b) :: p)
          = List.filter (fun kv => pred kv.1) p := by
        simp [List.filter_cons, hq]
      rw [hf, ih, dget_cons]
      by_cases hpk : pred k = true
      · rw [if_pos hpk, if_pos hpk, if_neg (fun hak => hq (by rw [hak]; exact hpk))]
      · rw [if_neg hpk, if_neg hpk]

/-! ### Structural lemmas about `finalizePeer` and `step` -/

/-- When the open peer section holds a non-empty public key, `finalizePeer`
emits the record under the comment-or-key-prefix name. -/
theorem finalizePeer_emit (st : PState) (pk : String)
    (hsec : st.sec = Sect.peer) (hget : dget? st.peerData "publickey" = some pk)
    (hpk : pk ≠ "") :
    finalizePeer st = { st with peers := (dinsert st.peers
      (match st.comment with
       | some c => if c ≠ "" then c else take12 pk
       | none => take12 pk)
      (mkPeerRecord st.peerData pk)) } := by
  have hne : st.peerData ≠ [] := by
    intro h
    rw [h] at hget
    exact Option.noConfusion hget
  simp only [finalizePeer, hget, Option.getD_some]
  rw [if_pos ⟨hsec, hne, hpk⟩]

/-- Nothing is emitted without a `publickey` entry or with an empty one. -/
theorem finalizePeer_skip (st : PState)
    (h : dget? st.peerData "publickey" = none ∨
      dget? st.peerData "publickey" = some "") :
    finalizePeer st = st := by
  rcases h with h | h <;> simp [finalizePeer, h]

/-- Nothing is emitted outside a peer section. -/
theorem finalizePeer_skip_sec (st : PState) (h : st.sec ≠ Sect.peer) :
    finalizePeer st = st := by
  simp only [finalizePeer]
  rw [if_neg (fun hc => h hc.1)]

/-- `finalizePeer` touches only the `peers` field. -/
theorem finalizePeer_fields (st : PState) :
    (finalizePeer st).interface = st.interface ∧
    (finalizePeer st).sec = st.sec ∧
    (finalizePeer st).comment = st.comment ∧
    (finalizePeer st).peerData = st.peerData := by
  simp only [finalizePeer]
  split <;> simp

/-- Any entry of `(finalizePeer st).peers` was already present or carries
the non-empty public key that let it through the guard. -/
theorem mem_finalizePeer_peers {st : PState} {p : String × PeerRecord}
    (hp : p ∈ (finalizePeer st).peers) : p ∈ st.peers ∨ p.2.public_key ≠ "" := by
  simp only [finalizePeer] at hp
  split at hp
  · rename_i hcond
    rcases mem_dinsert hp with h | h
    · exact Or.inl h
    · right
      rw [h]
      exact hcond.2.2
  · exact Or.inl hp

/-- Any entry of `(step st line).peers` comes from the old state or from the
finalize step a section header performs. -/
theorem mem_step_peers {st : PState} {line : String} {p : String × PeerRecord}
    (hp : p ∈ (step st line).peers) :
    p ∈ st.peers ∨ p ∈ (finalizePeer st).peers := by
  simp only [step] at hp
  split at hp
  · split at hp
    · split at hp
      · split at hp
        · exact Or.inl hp
        · exact Or.inl hp
      · exact Or.inl hp
    · exact Or.inl hp
  · split at hp
    · split at hp
      · exact Or.inr hp
      · split at hp
        · exact Or.inr hp
        · exact Or.inr hp
    · split at hp
      · split at hp
        · exact Or.inl hp
        · exact Or.inl hp
        · exact Or.inl hp
      · exact Or.inl hp

/-- A comment line outside the interface-public-key special case stores the
trimmed comment text and changes nothing else. -/
theorem step_comment (st : PState) (line : String)
    (h1 : startsW (pyStrip line) '#' = true)
    (h2 : ¬ (st.sec = Sect.iface ∧
      pyIn "publickey" (pyLower (pyStrip (dropOne (pyStrip line)))) = true)) :
    step st line = { st with comment := some (pyStrip (dropOne (pyStrip line))) } := by
  simp only [step]
  rw [if_pos h1, if_neg h2]

/-- An interface-section comment whose key part is exactly `publickey`
assigns the interface record's `public_key` and nothing else. -/
theorem step_comment_pubkey (st : PState) (line : String)
    (h1 : startsW (pyStrip line) '#' = true)
    (hsec : st.sec = Sect.iface)
    (hin : pyIn "publickey" (pyLower (pyStrip (dropOne (pyStrip line)))) = true)
    (heq : pyIn "=" (pyStrip (dropOne (pyStrip line))) = true)
    (hkey : pyLower (pyStrip (splitFirst (pyStrip (dropOne (pyStrip line))) '=').1)
      = "publickey") :
    step st line = { st with interface := (dinsert st.interface "public_key"
      (pyStrip (splitFirst (pyStrip (dropOne (pyStrip line))) '=').2)) } := by
  simp only [step]
  rw [if_pos h1, if_pos ⟨hsec, hin⟩, if_pos heq, if_pos hkey]

/-- An interface-section comment containing `publickey` whose key part is
not exactly `publickey` (or lacking `=`) is consumed with no effect. -/
theorem step_comment_pubkey_noop (st : PState) (line : String)
    (h1 : startsW (pyStrip line) '#' = true)
    (hsec : st.sec = Sect.iface)
    (hin : pyIn "publickey" (pyLower (pyStrip (dropOne (pyStrip line)))) = true)
    (h : pyIn "=" (pyStrip (dropOne (pyStrip line))) = false ∨
      pyLower (pyStrip (splitFirst (pyStrip (dropOne (pyStrip line))) '=').1)
        ≠ "publickey") :
    step st line = st := by
  simp only [step]
  rw [if_pos h1, if_pos ⟨hsec, hin⟩]
  rcases h with h | h
  · rw [if_neg (by simp [h])]
  · by_cases he : pyIn "=" (pyStrip (dropOne (pyStrip line))) = true
    · rw [if_pos he, if_neg h]
    · rw [if_neg he]

/-- A `[Peer]` header finalizes the previous peer and opens a fresh peer
section with a fresh data map and no pending comment. -/
theorem step_header_peer (st : PState) (line : String)
    (h1 : startsW (pyStrip line) '#' = false)
    (h2 : startsW (pyStrip line) '[' = true)
    (hp : pyIn "[Peer]" (pyStrip line) = true) :
    step st line =
      { finalizePeer st with sec := Sect.peer, peerData := [], comment := none } := by
  simp only [step]
  rw [if_neg (by simp [h1]), if_pos h2, if_pos hp]

/-- An `[Interface]` header finalizes the previous peer and switches to the
interface section, clearing the pending comment. -/
theorem step_header_iface (st : PState) (line : String)
    (h1 : startsW (pyStrip line) '#' = false)
    (h2 : startsW (pyStrip line) '[' = true)
    (hp : pyIn "[Peer]" (pyStrip line) = false)
    (hi : pyIn "[Interface]" (pyStrip line) = true) :
    step st line = { finalizePeer st with sec := Sect.iface, comment := none } := by
  simp only [step]
  rw [if_neg (by simp [h1]), if_pos h2, if_neg (by simp [hp]), if_pos hi]

/-- Any other bracketed header only performs the finalize step. -/
theorem step_header_other (st : PState) (line : String)
    (h1 : startsW (pyStrip line) '#' = false)
    (h2 : startsW (pyStrip line) '[' = true)
    (hp : pyIn "[Peer]" (pyStrip line) = false)
    (hi : pyIn "[Interface]" (pyStrip line) = false) :
    step st line = finalizePeer st := by
  simp only [step]
  rw [if_neg (by simp [h1]), if_pos h2, if_neg (by simp [hp]), if_neg (by simp [hi])]

/-- A key-value line in the interface section stores under the lowercased,
trimmed key into the interface map. -/
theorem step_kv_iface (st : PState) (line : String)
    (h1 : startsW (pyStrip line) '#' = false)
    (h2 : startsW (pyStrip line) '[' = false)
    (he : pyIn "=" (pyStrip line) = true)
    (hsec : st.sec = Sect.iface) :
    step st line = { st with interface := (dinsert st.interface
      (pyLower (pyStrip (splitFirst (pyStrip line) '=').1))
      (pyStrip (splitFirst (pyStrip line) '=').2)) } := by
  simp only [step]
  rw [if_neg (by simp [h1]), if_neg (by simp [h2]),
    if_pos ⟨he, by simp [hsec]⟩, hsec]

/-- A key-value line in a peer section stores under the lowercased, trimmed
key into the peer accumulation map. -/
theorem step_kv_peer (st : PState) (line : String)
    (h1 : startsW (pyStrip line) '#' = false)
    (h2 : startsW (pyStrip line) '[' = false)
    (he : pyIn "=" (pyStrip line) = true)
    (hsec : st.sec = Sect.peer) :
    step st line = { st with peerData := (dinsert st.peerData
      (pyLower (pyStrip (splitFirst (pyStrip line) '=').1))
      (pyStrip (splitFirst (pyStrip line) '=').2)) } := by
  simp only [step]
  rw [if_neg (by simp [h1]), if_neg (by simp [h2]),
    if_pos ⟨he, by simp [hsec]⟩, hsec]

/-- Any other line — blank, `=`-free, or a key-value line before any
section header — is ignored. -/
theorem step_other (st : PState) (line : String)
    (h1 : startsW (pyStrip line) '#' = false)
    (h2 : startsW (pyStrip line) '[' = false)
    (h3 : pyIn "=" (pyStrip line) = false ∨ st.sec = Sect.nosec) :
    step st line = st := by
  simp only [step]
  rw [if_neg (by simp [h1]), if_neg (by simp [h2]), if_neg]
  rintro ⟨hin, hsec⟩
  rcases h3 with h | h
  · rw [h] at hin
    cases hin
  · exact hsec h

/-- `merge_wireguard_peers` on present arguments is the fold it is
defined by. -/
theorem merge_eq_foldl (X Y : PeerMapping) :
    merge_wireguard_peers (some X) (some Y)
      = Y.foldl (fun m kv => dinsert m kv.1 kv.2) X := rfl

/-- A concrete parser state used in witnesses: an open peer section whose
accumulated data lacks a public key. -/
def stNoPk : PState :=
  { interface := [], peers := [], sec := Sect.peer,
    comment := none, peerData := [("allowedips", "10.0.0.3/32")] }

/-- A concrete parser state: an open peer section with a pending comment
and a public key. -/
def stWorker : PState :=
  { interface := [], peers := [], sec := Sect.peer,
    comment := some "worker-1", peerData := [("publickey", "K2")] }

/-- A concrete parser state: interface section with a pending comment. -/
def stIfaceOld : PState :=
  { interface := [], peers := [], sec := Sect.iface,
    comment := some "old", peerData := [] }

/-- A concrete parser state: interface section, no pending comment. -/
def stIface : PState :=
  { interface := [], peers := [], sec := Sect.iface,
    comment := none, peerData := [] }

/-- A concrete peer record used in witnesses. -/
def prK : PeerRecord :=
  { public_key := "K", allowed_ips := "", endpoint := none,
    persistent_keepalive := none }

/-- A concrete peer record used in witnesses. -/
def prP1 : PeerRecord :=
  { public_key := "P1", allowed_ips := "", endpoint := none,
    persistent_keepalive := none }

/-- A concrete peer record used in witnesses. -/
def prP2 : PeerRecord :=
  { public_key := "P2", allowed_ips := "", endpoint := none,
    persistent_keepalive := none }

/-! ### Claim theorems -/

/-- Claim C1, amended: a peer section is materialized at finalization iff
its accumulated data contains a `publickey` entry with a non-empty value;
with an absent or empty-valued entry the state is left unchanged,
regardless of other fields. -/
theorem C1_amended (st : PState) (hsec : st.sec = Sect.peer) :
    (∀ pk, dget? st.peerData "publickey" = some pk → pk ≠ "" →
      ∃ nm, (finalizePeer st).peers = dinsert st.peers nm (mkPeerRecord st.peerData pk) ∧
        dget? (finalizePeer st).peers nm = some (mkPeerRecord st.peerData pk)) ∧
    (dget? st.peerData "publickey" = none → finalizePeer st = st) ∧
    (dget? st.peerData "publickey" = some "" → finalizePeer st = st) := by
  refine ⟨?_, fun h => finalizePeer_skip st (Or.inl h),
    fun h => finalizePeer_skip st (Or.inr h)⟩
  intro pk hget hpk
  refine ⟨match st.comment with
          | some c => if c ≠ "" then c else take12 pk
          | none => take12 pk, ?_, ?_⟩
  · rw [finalizePeer_emit st pk hsec hget hpk]
  · rw [finalizePeer_emit st pk hsec hget hpk]
    have h2 := dget_dinsert st.peers
      (match st.comment with
       | some c => if c ≠ "" then c else take12 pk
       | none => take12 pk)
      (match st.comment with
       | some c => if c ≠ "" then c else take12 pk
       | none => take12 pk)
      (mkPeerRecord st.peerData pk)
    rw [if_pos rfl] at h2
    exact h2

/-- Witness for C1 at a concrete state: a peer section whose data lacks a
`publickey` entry is not materialized. -/
theorem C1_amended_witness : finalizePeer stNoPk = stNoPk :=
  (C1_amended _ rfl).2.1 (by decide)

/-- Claim C1 as stated is false: here the peer section's accumulated data
does contain a `publickey` entry (with empty value), yet the section is
absent from the returned peer mapping. -/
theorem C1_counterexample :
    dget? (((pyLines "[Peer]\nPublicKey =\nAllowedIPs = 10.0.0.3/32").foldl
      step initState).peerData) "publickey" = some "" ∧
    (parse_wireguard_config
      (some "[Peer]\nPublicKey =\nAllowedIPs = 10.0.0.3/32")).peers = [] := by
  exact ⟨by decide, by decide⟩

/-- Claim C2, amended: the interface record's `public_key` entry changes at
exactly two kinds of lines — a `# publickey = value` comment (key part
lowercased) in the interface section, or a key-value line in the interface
section whose key lowercases and trims to `public_key`; every other line
leaves it unchanged. -/
theorem C2_amended (st : PState) (line : String) :
    dget? (step st line).interface "public_key" =
      if startsW (pyStrip line) '#' = true then
        (if st.sec = Sect.iface ∧
            pyIn "publickey" (pyLower (pyStrip (dropOne (pyStrip line)))) = true then
          (if pyIn "=" (pyStrip (dropOne (pyStrip line))) = true then
            (if pyLower (pyStrip (splitFirst (pyStrip (dropOne (pyStrip line))) '=').1)
                = "publickey" then
              some (pyStrip (splitFirst (pyStrip (dropOne (pyStrip line))) '=').2)
            else dget? st.interface "public_key")
          else dget? st.interface "public_key")
        else dget? st.interface "public_key")
      else if startsW (pyStrip line) '[' = true then
        dget? st.interface "public_key"
      else if pyIn "=" (pyStrip line) = true ∧ st.sec = Sect.iface then
        (if pyLower (pyStrip (splitFirst (pyStrip line) '=').1) = "public_key" then
          some (pyStrip (splitFirst (pyStrip line) '=').2)
        else dget? st.interface "public_key")
      else dget? st.interface "public_key" := by
  by_cases h1 : startsW (pyStrip line) '#' = true
  · rw [if_pos h1]
    by_cases hc : st.sec = Sect.iface ∧
        pyIn "publickey" (pyLower (pyStrip (dropOne (pyStrip line)))) = true
    · rw [if_pos hc]
      by_cases he : pyIn "=" (pyStrip (dropOne (pyStrip line))) = true
      · rw [if_pos he]
        by_cases hk : pyLower (pyStrip (splitFirst (pyStrip (dropOne (pyStrip line))) '=').1)
            = "publickey"
        · rw [if_pos hk, step_comment_pubkey st line h1 hc.1 hc.2 he hk]
          have h3 := dget_dinsert st.interface "public_key" "public_key"
            (pyStrip (splitFirst (pyStrip (dropOne (pyStrip line))) '=').2)
          rw [if_pos rfl] at h3
          exact h3
        · rw [if_neg hk, step_comment_pubkey_noop st line h1 hc.1 hc.2 (Or.inr hk)]
      · rw [if_neg he,
          step_comment_pubkey_noop st line h1 hc.1 hc.2 (Or.inl (by simpa using he))]
    · rw [if_neg hc, step_comment st line h1 hc]
  · rw [if_neg h1]
    have h1f : startsW (pyStrip line) '#' = false := by simpa using h1
    by_cases h2 : startsW (pyStrip line) '[' = true
    · rw [if_pos h2]
      by_cases hp : pyIn "[Peer]" (pyStrip line) = true
      · rw [step_header_peer st line h1f h2 hp]
        exact (finalizePeer_fields st).1 ▸ rfl
      · have hpf : pyIn "[Peer]" (pyStrip line) = false := by simpa using hp
        by_cases hi : pyIn "[Interface]" (pyStrip line) = true
        · rw [step_header_iface st line h1f h2 hpf hi]
          exact (finalizePeer_fields st).1 ▸ rfl
        · rw [step_header_other st line h1f h2 hpf (by simpa using hi)]
          exact (finalizePeer_fields st).1 ▸ rfl
    · have h2f : startsW (pyStrip line) '[' = false := by simpa using h2
      rw [if_neg h2]
      by_cases hke : pyIn "=" (pyStrip line) = true ∧ st.sec = Sect.iface
      · rw [if_pos hke, step_kv_iface st line h1f h2f hke.1 hke.2]
        by_cases hk : pyLower (pyStrip (splitFirst (pyStrip line) '=').1) = "public_key"
        · rw [if_pos hk]
          have h3 := dget_dinsert st.interface
            (pyLower (pyStrip (splitFirst (pyStrip line) '=').1)) "public_key"
            (pyStrip (splitFirst (pyStrip line) '=').2)
          rw [if_pos hk.symm] at h3
          exact h3
        · rw [if_neg hk]
          have h3 := dget_dinsert st.interface
            (pyLower (pyStrip (splitFirst (pyStrip line) '=').1)) "public_key"
            (pyStrip (splitFirst (pyStrip line) '=').2)
          rw [if_neg (fun hh => hk hh.symm)] at h3
          exact h3
      · rw [if_neg hke]
        by_cases hin : pyIn "=" (pyStrip line) = true
        · have hsec : st.sec ≠ Sect.iface := fun h => hke ⟨hin, h⟩
          cases hs : st.sec with
          | nosec => rw [step_other st line h1f h2f (Or.inr hs)]
          | iface => exact absurd hs hsec
          | peer => rw [step_kv_peer st line h1f h2f hin hs]
        · rw [step_other st line h1f h2f (Or.inl (by simpa using hin))]

/-- Claim C2 as stated is false: an input with no comment line at all,
whose only body line is the key-value line `Public_Key = XYZ` inside
`[Interface]`, populates the interface record's `public_key`. -/
theorem C2_counterexample :
    pyIn "#" "[Interface]\nPublic_Key = XYZ" = false ∧
    dget? (parse_wireguard_config
      (some "[Interface]\nPublic_Key = XYZ")).interface "public_key"
      = some "XYZ" := by
  exact ⟨by decide, by decide⟩

/-- Claim C3: a finalized peer's name in the output mapping is the pending
comment text when that comment is non-empty, and otherwise the first 12
characters of the peer's public key. -/
theorem C3_peer_name (st : PState) (pk : String)
    (hsec : st.sec = Sect.peer) (hget : dget? st.peerData "publickey" = some pk)
    (hpk : pk ≠ "") :
    (∀ c, st.comment = some c → c ≠ "" →
      (finalizePeer st).peers = dinsert st.peers c (mkPeerRecord st.peerData pk)) ∧
    (∀ c, st.comment = some c → c = "" →
      (finalizePeer st).peers
        = dinsert st.peers (take12 pk) (mkPeerRecord st.peerData pk)) ∧
    (st.comment = none →
      (finalizePeer st).peers
        = dinsert st.peers (take12 pk) (mkPeerRecord st.peerData pk)) := by
  have hemit := finalizePeer_emit st pk hsec hget hpk
  refine ⟨?_, ?_, ?_⟩
  · intro c hc hcne
    rw [hemit, hc]
    simp [hcne]
  · intro c hc hce
    rw [hemit, hc]
    simp [hce]
  · intro hc
    rw [hemit, hc]

/-- Witness for C3 at a concrete state: the comment names the peer. -/
theorem C3_peer_name_witness :
    (finalizePeer stWorker).peers
      = dinsert [] "worker-1" (mkPeerRecord [("publickey", "K2")] "K2") :=
  (C3_peer_name stWorker "K2" rfl (by decide) (by decide)).1 "worker-1" rfl (by decide)

/-- Claim C4: every peer materialized by the parser has a non-empty public
key, and merge and filter preserve that invariant. -/
theorem C4_invariant :
    (∀ txt, ∀ p ∈ (parse_wireguard_config txt).peers, p.2.public_key ≠ "") ∧
    (∀ e n : PeerMapping, (∀ p ∈ e, p.2.public_key ≠ "") →
      (∀ p ∈ n, p.2.public_key ≠ "") →
      ∀ p ∈ merge_wireguard_peers (some e) (some n), p.2.public_key ≠ "") ∧
    (∀ (ps : PeerMapping) (inv : Option (List String)),
      (∀ p ∈ ps, p.2.public_key ≠ "") →
      ∀ p ∈ filter_peers_by_inventory (some ps) inv, p.2.public_key ≠ "") := by
  refine ⟨?_, ?_, ?_⟩
  · intro txt
    match txt with
    | none => intro p hp; cases hp
    | some s =>
      simp only [parse_wireguard_config]
      split
      · intro p hp; cases hp
      · intro p hp
        have hfold : ∀ (ls : List String) (st : PState),
            (∀ q ∈ st.peers, q.2.public_key ≠ "") →
            ∀ q ∈ (ls.foldl step st).peers, q.2.public_key ≠ "" := by
          intro ls
          induction ls with
          | nil => intro st h; exact h
          | cons l ls ih =>
            intro st h
            refine ih (step st l) ?_
            intro q hq
            rcases mem_step_peers hq with h2 | h2
            · exact h q h2
            · rcases mem_finalizePeer_peers h2 with h3 | h3
              · exact h q h3
              · exact h3
        rcases mem_finalizePeer_peers hp with h2 | h2
        · exact hfold (pyLines s) initState (fun q hq => absurd hq (List.not_mem_nil q)) p h2
        · exact h2
  · intro e n he hn p hp
    have hp2 : p ∈ n.foldl (fun m kv => dinsert m kv.1 kv.2) e := hp
    rcases mem_foldl_dinsert hp2 with h | h
    · exact he p h
    · exact hn p h
  · intro ps inv h p hp
    simp only [filter_peers_by_inventory] at hp
    split at hp
    · cases hp
    · split at hp
      · exact h p hp
      · split at hp
        · exact h p hp
        · exact h p (List.mem_filter.mp hp).1

/-- Witness for C4 at concrete mappings, through the filter conjunct. -/
theorem C4_invariant_witness : ("a", prK).2.public_key ≠ "" :=
  C4_invariant.2.2 [("a", prK)] none (by decide) ("a", prK) (by decide)

/-- Claim C5: merge is the last-writer-wins union keyed by name — the
incoming mapping answers every name it binds, the existing mapping answers
the rest, every incoming entry is present, and empty or absent arguments
behave as empty mappings.  (`hY` is well-formedness of the incoming
mapping: a Python dict never binds a name twice.) -/
theorem C5_merge (X Y : PeerMapping) (hY : (Y.map Prod.fst).Nodup) :
    (∀ k, dget? (merge_wireguard_peers (some X) (some Y)) k =
      firstOr (dget? Y k) (dget? X k)) ∧
    (∀ q ∈ Y, q ∈ merge_wireguard_peers (some X) (some Y)) ∧
    merge_wireguard_peers (some X) (some []) = X ∧
    merge_wireguard_peers (some []) (some Y) = Y ∧
    merge_wireguard_peers (none : Option PeerMapping) none = [] ∧
    merge_wireguard_peers none (some Y) = merge_wireguard_peers (some []) (some Y) ∧
    merge_wireguard_peers (some X) none = merge_wireguard_peers (some X) (some []) := by
  refine ⟨?_, ?_, rfl, ?_, rfl, rfl, rfl⟩
  · intro k
    rw [merge_eq_foldl]
    exact foldl_dinsert_dget Y hY X k
  · intro q hq
    rw [merge_eq_foldl]
    exact mem_foldl_dinsert_incoming hY hq
  · rw [merge_eq_foldl]
    rw [foldl_dinsert_disjoint Y hY [] (fun x _ => by simp)]
    simp

/-- Witness for C5 at concrete mappings: the incoming record wins. -/
theorem C5_merge_witness :
    dget? (merge_wireguard_peers
      (some [("a", prP1)]) (some [("a", prP2)])) "a" = some prP2 := by
  rw [(C5_merge [("a", prP1)] [("a", prP2)] (by decide)).1 "a"]
  decide

/-- Claim C6: an absent or empty peer mapping filters to empty, an absent
or empty allow-list means no filtering, and otherwise the result is exactly
the submapping whose names are members of the list (string equality). -/
theorem C6_filter :
    (∀ inv, filter_peers_by_inventory none inv = []) ∧
    (∀ inv, filter_peers_by_inventory (some []) inv = []) ∧
    (∀ ps : PeerMapping, filter_peers_by_inventory (some ps) none = ps) ∧
    (∀ ps : PeerMapping, filter_peers_by_inventory (some ps) (some []) = ps) ∧
    (∀ (ps : PeerMapping) (l : List String), l ≠ [] →
      ∀ q, q ∈ filter_peers_by_inventory (some ps) (some l) ↔ q ∈ ps ∧ q.1 ∈ l) ∧
    (∀ (ps : PeerMapping) (l : List String) (k : String), l ≠ [] →
      dget? (filter_peers_by_inventory (some ps) (some l)) k =
        if l.contains k = true then dget? ps k else none) := by
  refine ⟨fun _ => rfl, ?_, ?_, ?_, ?_, ?_⟩
  · intro inv
    simp [filter_peers_by_inventory]
  · intro ps
    by_cases h : ps = [] <;> simp [filter_peers_by_inventory, h]
  · intro ps
    by_cases h : ps = [] <;> simp [filter_peers_by_inventory, h]
  · intro ps l hl q
    simp only [filter_peers_by_inventory]
    by_cases hps : ps = []
    · subst hps
      simp
    · rw [if_neg hps, if_neg hl]
      constructor
      · intro hq
        have h2 := List.mem_filter.mp hq
        exact ⟨h2.1, by simpa using h2.2⟩
      · intro hq
        exact List.mem_filter.mpr ⟨hq.1, by simpa using hq.2⟩
  · intro ps l k hl
    simp only [filter_peers_by_inventory]
    by_cases hps : ps = []
    · subst hps
      by_cases hc : l.contains k = true <;> simp [hc, dget_nil]
    · rw [if_neg hps, if_neg hl]
      exact dget_filter_key ps (fun s => l.contains s) k

/-- Witness for C6 at concrete inputs: a name outside the allow-list is
removed. -/
theorem C6_filter_witness :
    dget? (filter_peers_by_inventory
      (some [("a", prP1), ("b", prP2)]) (some ["a"])) "b" = none := by
  rw [C6_filter.2.2.2.2.2 [("a", prP1), ("b", prP2)] ["a"] "b" (by decide)]
  decide

/-- Claim C7: the parser is total — `None`, empty and all-whitespace
inputs produce the empty result, and lines that are neither comments,
headers, nor key-value lines with an active section are ignored rather
than rejected (the embedding is a total function on `Option String`). -/
theorem C7_total :
    parse_wireguard_config none = { interface := [], peers := [] } ∧
    parse_wireguard_config (some "") = { interface := [], peers := [] } ∧
    (∀ s, pyStrip s = "" →
      parse_wireguard_config (some s) = { interface := [], peers := [] }) ∧
    (∀ st line, startsW (pyStrip line) '#' = false →
      startsW (pyStrip line) '[' = false →
      (pyIn "=" (pyStrip line) = false ∨ st.sec = Sect.nosec) →
      step st line = st) ∧
    parse_wireguard_config (some "Address = 10.0.0.1/24\n???\n= orphan")
      = { interface := [], peers := [] } := by
  refine ⟨rfl, rfl, ?_, step_other, by decide⟩
  intro s h
  simp [parse_wireguard_config, h]

/-- Witness for C7 at a concrete whitespace-only input. -/
theorem C7_total_witness :
    parse_wireguard_config (some "   \n \n") = { interface := [], peers := [] } :=
  C7_total.2.2.1 "   \n \n" (by decide)

/-- Claim C8: a bracketed header containing neither `[Peer]` nor
`[Interface]` performs the finalize check and otherwise leaves the state
unchanged: section, comment, accumulation map and interface all keep their
values. -/
theorem C8_inert_header (st : PState) (line : String)
    (h1 : startsW (pyStrip line) '#' = false)
    (h2 : startsW (pyStrip line) '[' = true)
    (hp : pyIn "[Peer]" (pyStrip line) = false)
    (hi : pyIn "[Interface]" (pyStrip line) = false) :
    step st line = finalizePeer st ∧
    (finalizePeer st).sec = st.sec ∧
    (finalizePeer st).comment = st.comment ∧
    (finalizePeer st).peerData = st.peerData ∧
    (finalizePeer st).interface = st.interface :=
  ⟨step_header_other st line h1 h2 hp hi, (finalizePeer_fields st).2.1,
    (finalizePeer_fields st).2.2.1, (finalizePeer_fields st).2.2.2,
    (finalizePeer_fields st).1⟩

/-- Witness for C8 at a concrete inert header. -/
theorem C8_inert_header_witness :
    step initState "[Whatever]" = finalizePeer initState ∧
    (finalizePeer initState).sec = initState.sec ∧
    (finalizePeer initState).comment = initState.comment ∧
    (finalizePeer initState).peerData = initState.peerData ∧
    (finalizePeer initState).interface = initState.interface :=
  C8_inert_header initState "[Whatever]" (by decide) (by decide) (by decide) (by decide)

/-- Claim C9, amended: an interface-section comment overwrites
`current_comment` iff its text does not contain `publickey`
(case-insensitively).  When the text does contain `publickey`,
`current_comment` is never changed: with an `=` and a key part that is
exactly `publickey` the value is assigned to the interface record's
`public_key`; otherwise the line has no effect at all. -/
theorem C9_amended (st : PState) (line : String)
    (h1 : startsW (pyStrip line) '#' = true) (hsec : st.sec = Sect.iface) :
    (pyIn "publickey" (pyLower (pyStrip (dropOne (pyStrip line)))) = false →
      step st line = { st with comment := some (pyStrip (dropOne (pyStrip line))) }) ∧
    (pyIn "publickey" (pyLower (pyStrip (dropOne (pyStrip line)))) = true →
      (pyIn "=" (pyStrip (dropOne (pyStrip line))) = false ∨
        pyLower (pyStrip (splitFirst (pyStrip (dropOne (pyStrip line))) '=').1)
          ≠ "publickey") →
      step st line = st) ∧
    (pyIn "publickey" (pyLower (pyStrip (dropOne (pyStrip line)))) = true →
      pyIn "=" (pyStrip (dropOne (pyStrip line))) = true →
      pyLower (pyStrip (splitFirst (pyStrip (dropOne (pyStrip line))) '=').1)
        = "publickey" →
      step st line = { st with interface := (dinsert st.interface "public_key"
        (pyStrip (splitFirst (pyStrip (dropOne (pyStrip line))) '=').2)) }) ∧
    (pyIn "publickey" (pyLower (pyStrip (dropOne (pyStrip line)))) = true →
      (step st line).comment = st.comment) := by
  refine ⟨?_, ?_, ?_, ?_⟩
  · intro hin
    exact step_comment st line h1 (fun hc => by rw [hc.2] at hin; cases hin)
  · intro hin h
    exact step_comment_pubkey_noop st line h1 hsec hin h
  · intro hin he hk
    exact step_comment_pubkey st line h1 hsec hin he hk
  · intro hin
    by_cases he : pyIn "=" (pyStrip (dropOne (pyStrip line))) = true
    · by_cases hk : pyLower (pyStrip (splitFirst (pyStrip (dropOne (pyStrip line))) '=').1)
          = "publickey"
      · rw [step_comment_pubkey st line h1 hsec hin he hk]
      · rw [step_comment_pubkey_noop st line h1 hsec hin (Or.inr hk)]
    · rw [step_comment_pubkey_noop st line h1 hsec hin (Or.inl (by simpa using he))]

/-- Witness for C9 at a concrete comment line in the interface section. -/
theorem C9_amended_witness :
    step stIface "# worker node" = { stIface with comment := some "worker node" } :=
  ((C9_amended stIface "# worker node" (by decide) rfl).1 (by decide)).trans (by decide)

/-- Claim C9 as stated is false: in the interface section the comment
`# my publickey = x` has key part `my publickey`, which is not
`publickey`, yet the parser does not overwrite `current_comment` — the
line has no effect at all. -/
theorem C9_counterexample :
    pyLower (pyStrip (splitFirst (pyStrip (dropOne
      (pyStrip "# my publickey = x"))) '=').1) ≠ "publickey" ∧
    step stIfaceOld "# my publickey = x" = stIfaceOld := by
  exact ⟨by decide, by decide⟩

/-- Claim C10: an interface-section key-value line is stored under its
lowercased trimmed key, so the interface mapping may hold arbitrary keys;
`PublicKey = V` lands under `publickey` (distinct from the `public_key`
field, which stays unset) while `Public_Key = V` lands under
`public_key`. -/
theorem C10_kv_keys :
    (∀ st line, startsW (pyStrip line) '#' = false →
      startsW (pyStrip line) '[' = false →
      pyIn "=" (pyStrip line) = true → st.sec = Sect.iface →
      dget? (step st line).interface
          (pyLower (pyStrip (splitFirst (pyStrip line) '=').1))
        = some (pyStrip (splitFirst (pyStrip line) '=').2)) ∧
    dget? (parse_wireguard_config (some "[Interface]\nPublicKey = V")).interface
      "publickey" = some "V" ∧
    dget? (parse_wireguard_config (some "[Interface]\nPublicKey = V")).interface
      "public_key" = none ∧
    dget? (parse_wireguard_config (some "[Interface]\nPublic_Key = V")).interface
      "public_key" = some "V" := by
  refine ⟨?_, by decide, by decide, by decide⟩
  intro st line h1 h2 he hsec
  rw [step_kv_iface st line h1 h2 he hsec]
  have h3 := dget_dinsert st.interface
    (pyLower (pyStrip (splitFirst (pyStrip line) '=').1))
    (pyLower (pyStrip (splitFirst (pyStrip line) '=').1))
    (pyStrip (splitFirst (pyStrip line) '=').2)
  rw [if_pos rfl] at h3
  exact h3

/-- Witness for C10 at a concrete key-value line. -/
theorem C10_kv_keys_witness :
    dget? (step stIface "ListenPort = 51820").interface
      (pyLower (pyStrip (splitFirst (pyStrip "ListenPort = 51820") '=').1))
      = some (pyStrip (splitFirst (pyStrip "ListenPort = 51820") '=').2) :=
  C10_kv_keys.1 stIface "ListenPort = 51820" (by decide) (by decide) (by decide) rfl

end WG
